import Mathlib

/-!
Verification of the longest-prefix-match forwarding table in
`src/c/route_lookup.c`: a binary trie over IPv4 address bits
(`insert_route`, `lookup_route_optimized`, `delete_route`) together with
a bounded TTL lookup cache (`create_route_cache`, `lookup_with_cache`).

The C data structures and operations are embedded shallowly:

* `route_entry_t` is the C struct of the same name; the C field `prefix`
  is called `pfx` here because `prefix` is a reserved word in Lean.
  32-bit quantities are `Nat` (with `< 2^32` hypotheses where the claims
  speak about 32-bit values); `time_t` and the signed C ints are `Int`.
* `trie_node_t` is the C node with its two child pointers (`none` is the
  NULL pointer), the `data` pointer (`none` is NULL) and the `is_leaf`
  flag.  The C fields `prefix`/`prefix_len` of a node are written by no
  operation after `create_trie_node` zeroes them, so they are omitted.
* `ip_to_binary` produces the bit list the C routine writes into its
  `binary` buffer (most significant bit first, truncated at
  `prefix_len`); it is meaningful for `prefix_len ≤ 32` exactly as in C.
* Allocation failure of `create_trie_node` is modelled by an explicit
  fuel argument in `insert_route_alloc`: the first `fuel` allocations
  succeed and the next one fails, which covers every behaviour of the C
  code because `insert_route` returns `-1` at the first failed
  allocation.  `insert_route` itself is the fully-allocating run.
* `delete_route` returns `Except Unit trie_node_t`; `.error ()` is the C
  return value `-1`.  In the C code every `-1` return happens before any
  mutation, so the error case carries no modified trie.
-/

/-- The C struct `route_entry_t`.  `pfx` is the C field `prefix`. -/
structure route_entry_t where
  pfx : Nat
  prefix_len : Nat
  next_hop : Nat
  as_path : List Int
  as_path_len : Int
  local_pref : Int
  med : Int
  last_update : Int
  deriving Repr, DecidableEq

/-- The C struct `trie_node_t`: children `c0`/`c1` (NULL = `none`), the
`data` route pointer and the `is_leaf` flag. -/
inductive trie_node_t where
  | mk : Option trie_node_t → Option trie_node_t → Option route_entry_t → Bool → trie_node_t

/-- Child pointer `children[0]`. -/
def trie_node_t.c0 : trie_node_t → Option trie_node_t
  | .mk a _ _ _ => a

/-- Child pointer `children[1]`. -/
def trie_node_t.c1 : trie_node_t → Option trie_node_t
  | .mk _ b _ _ => b

/-- The `data` field (route pointer, NULL = `none`). -/
def trie_node_t.data : trie_node_t → Option route_entry_t
  | .mk _ _ d _ => d

/-- The `is_leaf` flag. -/
def trie_node_t.is_leaf : trie_node_t → Bool
  | .mk _ _ _ l => l

/-- `children[bit]`.  The C index is the int `binary[i] - '0'`, which is
always 0 or 1, so the bit is embedded as a `Bool` (`true` = 1). -/
def trie_node_t.child (t : trie_node_t) (b : Bool) : Option trie_node_t :=
  if b then t.c1 else t.c0

/-- Replace `children[bit]` (the other fields are untouched). -/
def trie_node_t.setChild (t : trie_node_t) (b : Bool) (c : Option trie_node_t) :
    trie_node_t :=
  if b then .mk t.c0 c t.data t.is_leaf else .mk c t.c1 t.data t.is_leaf

/-- `create_trie_node` with a successful allocation: both children NULL,
no data, `is_leaf = 0`. -/
def create_trie_node : trie_node_t := .mk none none none false

/-- `ip_to_binary(ip, prefix_len, binary)`: the first `prefix_len`
characters of the buffer, as bits.  Entry `i` is `(ip >> (31 - i)) & 1`,
i.e. `ip.testBit (31 - i)`, so this agrees with C for `prefix_len ≤ 32`
(beyond 32 the C code reads past its buffer). -/
def ip_to_binary (ip : Nat) (prefix_len : Nat) : List Bool :=
  (List.range prefix_len).map (fun i => ip.testBit (31 - i))

/-- The descent loop of `insert_route` over the remaining bit list:
missing children are created, and after the last bit the record is
attached and the leaf flag set. -/
def insertAux (r : route_entry_t) : trie_node_t → List Bool → trie_node_t
  | t, [] => .mk t.c0 t.c1 (some r) true
  | t, b :: bs =>
    match t.child b with
    | some c => t.setChild b (some (insertAux r c bs))
    | none => t.setChild b (some (insertAux r create_trie_node bs))

/-- `insert_route(root, route)` with every allocation succeeding
(the C return value `0`). -/
def insert_route (t : trie_node_t) (r : route_entry_t) : trie_node_t :=
  insertAux r t (ip_to_binary r.pfx r.prefix_len)

/-- The descent loop of `insert_route` with an allocation budget:
`fuel` is the number of `create_trie_node` calls that still succeed.
Returns (C return value `0`? , resulting trie, remaining fuel).  When an
allocation fails the C code returns `-1` immediately, leaving the nodes
created so far linked into the trie, which is what the `fuel = 0` branch
reproduces. -/
def insertAuxAlloc (r : route_entry_t) :
    trie_node_t → List Bool → Nat → Bool × trie_node_t × Nat
  | t, [], fuel => (true, .mk t.c0 t.c1 (some r) true, fuel)
  | t, b :: bs, fuel =>
    match t.child b with
    | some c =>
      let res := insertAuxAlloc r c bs fuel
      (res.1, t.setChild b (some res.2.1), res.2.2)
    | none =>
      match fuel with
      | 0 => (false, t, 0)
      | Nat.succ f =>
        let res := insertAuxAlloc r create_trie_node bs f
        (res.1, t.setChild b (some res.2.1), res.2.2)

/-- `insert_route` under an allocation budget: the flag is `false`
exactly when the C call returns `-1` (allocation failure mid-path), and
the trie component is the state the C trie is left in. -/
def insert_route_alloc (t : trie_node_t) (r : route_entry_t) (fuel : Nat) :
    Bool × trie_node_t :=
  let res := insertAuxAlloc r t (ip_to_binary r.pfx r.prefix_len) fuel
  (res.1, res.2.1)

/-- The loop of `lookup_route_optimized`: walk the remaining address
bits, remembering the data of the most recent leaf seen; stop at the
first missing child. -/
def lookupAux : trie_node_t → List Bool → Option route_entry_t → Option route_entry_t
  | _, [], best => best
  | t, b :: bs, best =>
    match t.child b with
    | none => best
    | some c => lookupAux c bs (if c.is_leaf then c.data else best)

/-- `lookup_route_optimized(root, ip)`: walk all 32 address bits, most
significant first; return the last leaf record seen (NULL = `none`). -/
def lookup_route_optimized (t : trie_node_t) (ip : Nat) : Option route_entry_t :=
  lookupAux t (ip_to_binary ip 32) none

/-- The C pruning condition
`!node->is_leaf && !node->children[0] && !node->children[1]`. -/
def prunable (t : trie_node_t) : Bool :=
  !t.is_leaf && t.c0.isNone && t.c1.isNone

/-- The recursive core of `delete_route` below the root: walk the
remaining bits (error `-1` at a missing child), clear the terminal
node's leaf flag and data (error `-1` if it is not a leaf), then on the
way back free every node that is now simultaneously non-leaf and
childless — exactly the bottom-up pruning loop over the recorded `path`
array, which stops at the first node that is still a leaf or still has
a child.  The result `none` means this node itself was freed. -/
def deleteAux : trie_node_t → List Bool → Except Unit (Option trie_node_t)
  | t, [] =>
    if t.is_leaf then
      let t' := trie_node_t.mk t.c0 t.c1 none false
      .ok (if prunable t' then none else some t')
    else .error ()
  | t, b :: bs =>
    match t.child b with
    | none => .error ()
    | some c =>
      match deleteAux c bs with
      | .error _ => .error ()
      | .ok c' =>
        let t' := t.setChild b c'
        .ok (if prunable t' then none else some t')

/-- `delete_route(root, prefix, prefix_len)`.  The root itself is never
in the recorded `path` array, so it is cleared (for `prefix_len = 0`)
but never freed. -/
def delete_route (t : trie_node_t) (pfx len : Nat) : Except Unit trie_node_t :=
  match ip_to_binary pfx len with
  | [] => if t.is_leaf then .ok (.mk t.c0 t.c1 none false) else .error ()
  | b :: bs =>
    match t.child b with
    | none => .error ()
    | some c =>
      match deleteAux c bs with
      | .error _ => .error ()
      | .ok c' => .ok (t.setChild b c')

/-! Specification-side views of the trie used to state the claims. -/

/-- The node reached from `t` by the bit path `p`, if the path exists. -/
def getNode (t : trie_node_t) : List Bool → Option trie_node_t
  | [] => some t
  | b :: bs =>
    match t.child b with
    | none => none
    | some c => getNode c bs

/-- Leaf information at path `p`: `some d` when the node exists and its
leaf flag is set (`d` its data pointer), `none` otherwise. -/
def nodeLeaf (t : trie_node_t) : List Bool → Option (Option route_entry_t)
  | [] => if t.is_leaf then some t.data else none
  | b :: bs =>
    match t.child b with
    | none => none
    | some c => nodeLeaf c bs

/-- The leaf information at the deepest nonempty prefix of `bs` that
carries a leaf, descending from `t`. -/
def deepestLeaf (t : trie_node_t) : List Bool → Option (Option route_entry_t)
  | [] => none
  | b :: bs =>
    match t.child b with
    | none => none
    | some c =>
      match deepestLeaf c bs with
      | some v => some v
      | none => if c.is_leaf then some c.data else none

/-- The significant bits of a route: the path `insert_route` walks. -/
def routeBits (r : route_entry_t) : List Bool :=
  ip_to_binary r.pfx r.prefix_len

/-- Route `r`'s prefix is a bit-prefix of address `ip` (the spec's
notion of a match): the first `prefix_len` bits agree. -/
def routeMatches (r : route_entry_t) (ip : Nat) : Prop :=
  ip_to_binary r.pfx r.prefix_len = ip_to_binary ip r.prefix_len

instance (r : route_entry_t) (ip : Nat) : Decidable (routeMatches r ip) := by
  unfold routeMatches; infer_instance

/-- The trie obtained by inserting the routes in order into a fresh
root node. -/
def buildTrie (routes : List route_entry_t) : trie_node_t :=
  routes.foldl insert_route create_trie_node

/-- One insert or delete call, as issued by the external caller. -/
inductive trie_op where
  | ins (r : route_entry_t)
  | del (pfx len : Nat)

/-- Apply one operation; a failed delete leaves the trie unchanged
(the C code mutates nothing before returning `-1`). -/
def apply_op (t : trie_node_t) : trie_op → trie_node_t
  | .ins r => insert_route t r
  | .del p l =>
    match delete_route t p l with
    | .ok t' => t'
    | .error _ => t

/-- Run a call sequence against a freshly created root. -/
def run_ops (ops : List trie_op) : trie_node_t :=
  ops.foldl apply_op create_trie_node

/-! The lookup cache. -/

/-- The C struct `route_cache_entry_t`. -/
structure route_cache_entry_t where
  ip : Nat
  route : route_entry_t
  timestamp : Int
  deriving Repr, DecidableEq

/-- The C struct `route_cache_t`: the first `size` slots of the malloc'd
array are the list `entries`; `capacity` is fixed at creation. -/
structure route_cache_t where
  entries : List route_cache_entry_t
  capacity : Nat
  deriving Repr, DecidableEq

/-- The `size` field of the C struct. -/
def route_cache_t.size (c : route_cache_t) : Nat := c.entries.length

/-- `create_route_cache(capacity)`: empty entry array, fixed capacity. -/
def create_route_cache (capacity : Nat) : route_cache_t :=
  { entries := [], capacity := capacity }

/-- The scan loop of `lookup_with_cache`: first entry with matching
address and age strictly below the TTL. -/
def cache_scan (es : List route_cache_entry_t) (ip : Nat) (now ttl : Int) :
    Option route_entry_t :=
  match es with
  | [] => none
  | e :: es' =>
    if e.ip = ip ∧ now - e.timestamp < ttl then some e.route
    else cache_scan es' ip now ttl

/-- `lookup_with_cache(root, cache, ip, cache_ttl)` at time `now`:
returns the looked-up route and the cache state after the call. -/
def lookup_with_cache (root : trie_node_t) (cache : route_cache_t)
    (ip : Nat) (cache_ttl : Int) (now : Int) :
    Option route_entry_t × route_cache_t :=
  match cache_scan cache.entries ip now cache_ttl with
  | some r => (some r, cache)
  | none =>
    match lookup_route_optimized root ip with
    | some r =>
      if cache.entries.length < cache.capacity then
        (some r,
         { cache with
             entries := cache.entries ++ [{ ip := ip, route := r, timestamp := now }] })
      else (some r, cache)
    | none => (none, cache)

/-- One `lookup_with_cache` call as issued by the caller: the trie it is
run against, the queried address, the TTL argument and the clock. -/
structure cache_query where
  root : trie_node_t
  ip : Nat
  ttl : Int
  now : Int

/-- Cache state after a sequence of `lookup_with_cache` calls. -/
def run_queries (cache : route_cache_t) (qs : List cache_query) : route_cache_t :=
  qs.foldl (fun c q => (lookup_with_cache q.root c q.ip q.ttl q.now).2) cache

/-- A route record with the given prefix, length and next hop and all
opaque payload fields zeroed (used for concrete test inputs). -/
def mkRoute (pfx len nh : Nat) : route_entry_t :=
  { pfx := pfx, prefix_len := len, next_hop := nh, as_path := [],
    as_path_len := 0, local_pref := 0, med := 0, last_update := 0 }

/-- A node that the pruning invariant allows: it is a leaf or has a
child (the negation of the C pruning condition). -/
def goodNode (t : trie_node_t) : Prop :=
  t.is_leaf = true ∨ t.c0 ≠ none ∨ t.c1 ≠ none

/-- Every node strictly below the root satisfies `goodNode`. -/
def goodBelow (t : trie_node_t) : Prop :=
  ∀ b bs n, getNode t (b :: bs) = some n → goodNode n

/-- `nodeLeaf` lifted to a possibly-freed node (the result of the
pruning walk): a freed node has no leaf information on any path. -/
def nodeLeafOpt : Option trie_node_t → List Bool → Option (Option route_entry_t)
  | none, _ => none
  | some t, p => nodeLeaf t p

/-- `getNode` lifted to a possibly-freed node. -/
def getNodeOpt : Option trie_node_t → List Bool → Option trie_node_t
  | none, _ => none
  | some t, p => getNode t p

/-- One step of the fold that tracks which record is anchored at path
`p` after a list of inserts (last writer wins). -/
def anchorStep (p : List Bool) (acc : Option (Option route_entry_t))
    (r : route_entry_t) : Option (Option route_entry_t) :=
  if p = routeBits r then some (some r) else acc

/-! Sanity checks against the worked example in the specification:
`10.0.0.0/8` and `10.0.1.0/24` inserted, then looked up. -/

example :
    (lookup_route_optimized
      (buildTrie
        [{ pfx := 167772160, prefix_len := 8, next_hop := 1, as_path := [],
           as_path_len := 0, local_pref := 0, med := 0, last_update := 0 },
         { pfx := 167772416, prefix_len := 24, next_hop := 2, as_path := [],
           as_path_len := 0, local_pref := 0, med := 0, last_update := 0 }])
      167772421).map route_entry_t.next_hop = some 2 := by decide

example :
    (lookup_route_optimized
      (buildTrie
        [{ pfx := 167772160, prefix_len := 8, next_hop := 1, as_path := [],
           as_path_len := 0, local_pref := 0, med := 0, last_update := 0 },
         { pfx := 167772416, prefix_len := 24, next_hop := 2, as_path := [],
           as_path_len := 0, local_pref := 0, med := 0, last_update := 0 }])
      167904004).map route_entry_t.next_hop = some 1 := by decide

example :
    lookup_route_optimized
      (buildTrie
        [{ pfx := 167772160, prefix_len := 8, next_hop := 1, as_path := [],
           as_path_len := 0, local_pref := 0, med := 0, last_update := 0 }])
      3232235777 = none := by decide

/-! Basic structural lemmas. -/

@[simp] theorem c0_mk (a b : Option trie_node_t) (d : Option route_entry_t)
    (l : Bool) : (trie_node_t.mk a b d l).c0 = a := rfl

@[simp] theorem c1_mk (a b : Option trie_node_t) (d : Option route_entry_t)
    (l : Bool) : (trie_node_t.mk a b d l).c1 = b := rfl

@[simp] theorem data_mk (a b : Option trie_node_t) (d : Option route_entry_t)
    (l : Bool) : (trie_node_t.mk a b d l).data = d := rfl

@[simp] theorem is_leaf_mk (a b : Option trie_node_t) (d : Option route_entry_t)
    (l : Bool) : (trie_node_t.mk a b d l).is_leaf = l := rfl

@[simp] theorem child_mk (a b : Option trie_node_t) (d : Option route_entry_t)
    (l : Bool) (q : Bool) :
    (trie_node_t.mk a b d l).child q = if q then b else a := by
  cases q <;> rfl

@[simp] theorem child_create_trie_node (b : Bool) :
    create_trie_node.child b = none := by
  cases b <;> rfl

@[simp] theorem setChild_is_leaf (t : trie_node_t) (b : Bool)
    (c : Option trie_node_t) : (t.setChild b c).is_leaf = t.is_leaf := by
  cases b <;> rfl

@[simp] theorem setChild_data (t : trie_node_t) (b : Bool)
    (c : Option trie_node_t) : (t.setChild b c).data = t.data := by
  cases b <;> rfl

theorem setChild_child (t : trie_node_t) (b : Bool) (c : Option trie_node_t)
    (q : Bool) : (t.setChild b c).child q = if q = b then c else t.child q := by
  cases b <;> cases q <;> rfl

@[simp] theorem setChild_child_same (t : trie_node_t) (b : Bool)
    (c : Option trie_node_t) : (t.setChild b c).child b = c := by
  simp [setChild_child]

theorem setChild_child_ne (t : trie_node_t) {b q : Bool}
    (c : Option trie_node_t) (h : q ≠ b) : (t.setChild b c).child q = t.child q := by
  simp [setChild_child, h]

@[simp] theorem nodeLeaf_nil (t : trie_node_t) :
    nodeLeaf t [] = if t.is_leaf then some t.data else none := rfl

theorem nodeLeaf_cons (t : trie_node_t) (b : Bool) (bs : List Bool) :
    nodeLeaf t (b :: bs) =
      match t.child b with
      | none => none
      | some c => nodeLeaf c bs := rfl

@[simp] theorem nodeLeaf_create_trie_node (p : List Bool) :
    nodeLeaf create_trie_node p = none := by
  cases p with
  | nil => rfl
  | cons b bs => simp [nodeLeaf_cons]

@[simp] theorem getNode_nil (t : trie_node_t) : getNode t [] = some t := rfl

theorem getNode_cons (t : trie_node_t) (b : Bool) (bs : List Bool) :
    getNode t (b :: bs) =
      match t.child b with
      | none => none
      | some c => getNode c bs := rfl

@[simp] theorem getNode_create_trie_node_cons (b : Bool) (bs : List Bool) :
    getNode create_trie_node (b :: bs) = none := by
  simp [getNode_cons]

@[simp] theorem ip_to_binary_length (ip n : Nat) :
    (ip_to_binary ip n).length = n := by
  simp [ip_to_binary]

theorem ip_to_binary_take (ip : Nat) {m n : Nat} (h : m ≤ n) :
    (ip_to_binary ip n).take m = ip_to_binary ip m := by
  simp [ip_to_binary, ← List.map_take, List.take_range, Nat.min_eq_left h]

/-! The effect of `insert_route` on the leaf information of every path:
the inserted path now carries the new record, every other path is
untouched. -/

theorem nodeLeaf_insertAux (r : route_entry_t) (t : trie_node_t)
    (bs p : List Bool) :
    nodeLeaf (insertAux r t bs) p =
      if p = bs then some (some r) else nodeLeaf t p := by
  induction bs generalizing t p with
  | nil =>
    cases p with
    | nil => simp [insertAux]
    | cons q qs => simp [insertAux, nodeLeaf_cons, trie_node_t.child]
  | cons b bs ih =>
    cases hc : t.child b with
    | some c =>
      cases p with
      | nil => simp [insertAux, hc]
      | cons q qs =>
        by_cases hq : q = b
        · subst hq
          by_cases hqs : qs = bs <;>
            simp [insertAux, hc, nodeLeaf_cons, ih, hqs]
        · simp only [insertAux, hc, nodeLeaf_cons, setChild_child_ne _ _ hq,
            List.cons.injEq]
          simp [hq]
    | none =>
      cases p with
      | nil => simp [insertAux, hc]
      | cons q qs =>
        by_cases hq : q = b
        · subst hq
          by_cases hqs : qs = bs <;>
            simp [insertAux, hc, nodeLeaf_cons, ih, hqs]
        · simp only [insertAux, hc, nodeLeaf_cons, setChild_child_ne _ _ hq,
            List.cons.injEq]
          simp [hq]

theorem nodeLeaf_insert_route (t : trie_node_t) (r : route_entry_t)
    (p : List Bool) :
    nodeLeaf (insert_route t r) p =
      if p = routeBits r then some (some r) else nodeLeaf t p := by
  simp [insert_route, routeBits, nodeLeaf_insertAux]

/-! The lookup loop returns the record of the deepest leaf along the
address path. -/

theorem lookupAux_eq_deepestLeaf (bs : List Bool) (t : trie_node_t)
    (best : Option route_entry_t) :
    lookupAux t bs best = (deepestLeaf t bs).getD best := by
  induction bs generalizing t best with
  | nil => simp [lookupAux, deepestLeaf]
  | cons b bs ih =>
    cases hc : t.child b with
    | none => simp [lookupAux, deepestLeaf, hc]
    | some c =>
      cases hd : deepestLeaf c bs <;> cases hl : c.is_leaf <;>
        simp [lookupAux, deepestLeaf, hc, hd, hl, ih]

theorem lookup_route_optimized_eq (t : trie_node_t) (ip : Nat) :
    lookup_route_optimized t ip =
      (deepestLeaf t (ip_to_binary ip 32)).getD none := by
  simp [lookup_route_optimized, lookupAux_eq_deepestLeaf]

/-- Characterization of `deepestLeaf` by the leaf information of the
nonempty prefixes of the path: either no prefix carries a leaf, or there
is a deepest one carrying a leaf and `deepestLeaf` returns its data. -/
theorem deepestLeaf_charac (bs : List Bool) (t : trie_node_t) :
    (deepestLeaf t bs = none ∧
      ∀ d, d < bs.length → nodeLeaf t (bs.take (d + 1)) = none)
    ∨ (∃ d, d < bs.length ∧ ∃ v, deepestLeaf t bs = some v ∧
        nodeLeaf t (bs.take (d + 1)) = some v ∧
        ∀ e, d < e → e < bs.length → nodeLeaf t (bs.take (e + 1)) = none) := by
  induction bs generalizing t with
  | nil =>
    left
    exact ⟨rfl, fun d hd => absurd hd (by simp)⟩
  | cons b bs ih =>
    cases hc : t.child b with
    | none =>
      left
      refine ⟨by simp [deepestLeaf, hc], fun d hd => ?_⟩
      simp [List.take_succ_cons, nodeLeaf_cons, hc]
    | some c =>
      rcases ih c with ⟨hnone, hall⟩ | ⟨d, hd, v, hdeep, hval, hafter⟩
      · cases hl : c.is_leaf with
        | false =>
          left
          refine ⟨by simp [deepestLeaf, hc, hnone, hl], fun d hd => ?_⟩
          cases d with
          | zero => simp [List.take_succ_cons, nodeLeaf_cons, hc, hl]
          | succ d' =>
            simp only [List.take_succ_cons, nodeLeaf_cons, hc]
            exact hall d' (by simpa using hd)
        | true =>
          right
          refine ⟨0, by simp, c.data,
            by simp [deepestLeaf, hc, hnone, hl],
            by simp [List.take_succ_cons, nodeLeaf_cons, hc, hl],
            fun e he hel => ?_⟩
          cases e with
          | zero => omega
          | succ e' =>
            simp only [List.take_succ_cons, nodeLeaf_cons, hc]
            exact hall e' (by simpa using hel)
      · right
        refine ⟨d + 1, by simpa using hd, v,
          by simp [deepestLeaf, hc, hdeep],
          by simpa [List.take_succ_cons, nodeLeaf_cons, hc] using hval,
          fun e he hel => ?_⟩
        cases e with
        | zero => omega
        | succ e' =>
          simp only [List.take_succ_cons, nodeLeaf_cons, hc]
          exact hafter e' (by omega) (by simpa using hel)

/-- If no nonempty bit-prefix of the address reaches a leaf, the lookup
returns NULL. -/
theorem lookup_of_no_leaf (t : trie_node_t) (ip : Nat)
    (h : ∀ d, d < 32 → nodeLeaf t (ip_to_binary ip (d + 1)) = none) :
    lookup_route_optimized t ip = none := by
  rw [lookup_route_optimized_eq]
  rcases deepestLeaf_charac (ip_to_binary ip 32) t with ⟨hnone, _⟩ |
    ⟨d, hd, v, _, hval, _⟩
  · simp [hnone]
  · rw [ip_to_binary_length] at hd
    rw [ip_to_binary_take ip (by omega : d + 1 ≤ 32)] at hval
    exact absurd hval (by simp [h d hd])

/-- If depth `d + 1` along the address reaches a leaf with data `v` and
no deeper prefix reaches a leaf, the lookup returns `v`. -/
theorem lookup_of_deepest_leaf (t : trie_node_t) (ip : Nat) (d : Nat)
    (v : Option route_entry_t) (hd : d < 32)
    (hval : nodeLeaf t (ip_to_binary ip (d + 1)) = some v)
    (hafter : ∀ e, d < e → e < 32 → nodeLeaf t (ip_to_binary ip (e + 1)) = none) :
    lookup_route_optimized t ip = v := by
  rw [lookup_route_optimized_eq]
  rcases deepestLeaf_charac (ip_to_binary ip 32) t with ⟨_, hall⟩ |
    ⟨d', hd', v', hdeep, hval', hafter'⟩
  · have := hall d (by simpa using hd)
    rw [ip_to_binary_take ip (by omega : d + 1 ≤ 32)] at this
    simp [this] at hval
  · rw [ip_to_binary_length] at hd'
    rw [ip_to_binary_take ip (by omega : d' + 1 ≤ 32)] at hval'
    rcases Nat.lt_trichotomy d d' with hlt | heq | hgt
    · rw [hafter d' hlt hd'] at hval'
      exact absurd hval' (by simp)
    · subst heq
      rw [hval] at hval'
      rw [hdeep]
      injection hval' with hv
      simpa using hv.symm
    · have := hafter' d hgt (by simpa using hd)
      rw [ip_to_binary_take ip (by omega : d + 1 ≤ 32)] at this
      simp [this] at hval

/-- Every record the lookup returns is anchored at a leaf on some
nonempty bit-prefix of the address (never at the root). -/
theorem lookup_anchored (t : trie_node_t) (ip : Nat) (x : route_entry_t)
    (h : lookup_route_optimized t ip = some x) :
    ∃ d, d < 32 ∧ nodeLeaf t (ip_to_binary ip (d + 1)) = some (some x) := by
  rw [lookup_route_optimized_eq] at h
  rcases deepestLeaf_charac (ip_to_binary ip 32) t with ⟨hnone, _⟩ |
    ⟨d, hd, v, hdeep, hval, _⟩
  · simp [hnone] at h
  · rw [ip_to_binary_length] at hd
    rw [ip_to_binary_take ip (by omega : d + 1 ≤ 32)] at hval
    refine ⟨d, hd, ?_⟩
    rw [hdeep] at h
    simpa [← h] using hval

/-- Two tries with the same leaf information on every nonempty path
answer every lookup identically. -/
theorem lookup_congr (t1 t2 : trie_node_t)
    (h : ∀ b p, nodeLeaf t1 (b :: p) = nodeLeaf t2 (b :: p)) (ip : Nat) :
    lookup_route_optimized t1 ip = lookup_route_optimized t2 ip := by
  have hx : ∀ d, nodeLeaf t1 (ip_to_binary ip (d + 1)) =
      nodeLeaf t2 (ip_to_binary ip (d + 1)) := by
    intro d
    have hne : ip_to_binary ip (d + 1) ≠ [] := by
      intro hcon
      have := congrArg List.length hcon
      simp at this
    obtain ⟨b, p, hbp⟩ := List.exists_cons_of_ne_nil hne
    rw [hbp]; exact h b p
  rcases deepestLeaf_charac (ip_to_binary ip 32) t1 with ⟨hnone, hall⟩ |
    ⟨d, hd, v, hdeep, hval, hafter⟩
  · have h1 : lookup_route_optimized t1 ip = none := by
      rw [lookup_route_optimized_eq]; simp [hnone]
    have h2 : lookup_route_optimized t2 ip = none := by
      apply lookup_of_no_leaf
      intro d hd
      rw [← hx d]
      have := hall d (by simpa using hd)
      rwa [ip_to_binary_take ip (by omega : d + 1 ≤ 32)] at this
    rw [h1, h2]
  · rw [ip_to_binary_length] at hd
    rw [ip_to_binary_take ip (by omega : d + 1 ≤ 32)] at hval
    have h1 : lookup_route_optimized t1 ip = v := by
      rw [lookup_route_optimized_eq, hdeep]; rfl
    have h2 : lookup_route_optimized t2 ip = v := by
      apply lookup_of_deepest_leaf t2 ip d v (by omega)
      · rw [← hx d]; exact hval
      · intro e he hel
        rw [← hx e]
        have := hafter e he (by simpa using hel)
        rwa [ip_to_binary_take ip (by omega : e + 1 ≤ 32)] at this
    rw [h1, h2]

/-! The behaviour of `delete_route`: when it fails, when it succeeds,
and what the surviving trie looks like. -/

theorem prunable_iff (t : trie_node_t) :
    prunable t = true ↔ t.is_leaf = false ∧ t.c0 = none ∧ t.c1 = none := by
  cases hl : t.is_leaf <;>
    simp [prunable, hl, Option.isNone_iff_eq_none]

theorem deleteAux_error_iff (bs : List Bool) (t : trie_node_t) :
    deleteAux t bs = .error () ↔ nodeLeaf t bs = none := by
  induction bs generalizing t with
  | nil => cases hl : t.is_leaf <;> simp [deleteAux, hl]
  | cons b bs ih =>
    cases hc : t.child b with
    | none => simp [deleteAux, hc, nodeLeaf_cons]
    | some c =>
      cases hd : deleteAux c bs with
      | error e =>
        cases e
        simp only [deleteAux, hc, hd, nodeLeaf_cons]
        simpa using (ih c).mp hd
      | ok c' =>
        simp only [deleteAux, hc, hd, nodeLeaf_cons]
        constructor
        · intro hcon
          by_cases hp : prunable (t.setChild b c') = true <;> simp [hp] at hcon
        · intro hcon
          rw [← (ih c)] at hcon
          rw [hd] at hcon
          exact absurd hcon (by simp)

theorem delete_route_error_iff (t : trie_node_t) (pfx len : Nat) :
    delete_route t pfx len = .error () ↔
      nodeLeaf t (ip_to_binary pfx len) = none := by
  unfold delete_route
  cases hb : ip_to_binary pfx len with
  | nil => cases hl : t.is_leaf <;> simp [hl]
  | cons b bs =>
    cases hc : t.child b with
    | none => simp [hc, nodeLeaf_cons]
    | some c =>
      cases hd : deleteAux c bs with
      | error e =>
        cases e
        simp only [hc, hd, nodeLeaf_cons]
        simpa using (deleteAux_error_iff bs c).mp hd
      | ok c' =>
        simp only [hc, hd, nodeLeaf_cons]
        constructor
        · intro hcon
          exact absurd hcon (by simp)
        · intro hcon
          rw [← deleteAux_error_iff bs c] at hcon
          rw [hd] at hcon
          exact absurd hcon (by simp)

theorem delete_route_error_or_ok (t : trie_node_t) (pfx len : Nat) :
    delete_route t pfx len = .error () ∨
      ∃ t2, delete_route t pfx len = .ok t2 := by
  cases h : delete_route t pfx len with
  | error e => cases e; exact Or.inl rfl
  | ok t2 => exact Or.inr ⟨t2, rfl⟩

theorem nodeLeafOpt_deleteAux (bs : List Bool) (t : trie_node_t)
    (res : Option trie_node_t) (h : deleteAux t bs = .ok res) (p : List Bool) :
    nodeLeafOpt res p = if p = bs then none else nodeLeaf t p := by
  induction bs generalizing t res p with
  | nil =>
    cases hl : t.is_leaf with
    | false => simp [deleteAux, hl] at h
    | true =>
      simp only [deleteAux, hl, if_true] at h
      by_cases hp : prunable (trie_node_t.mk t.c0 t.c1 none false) = true
      · rw [if_pos hp] at h
        obtain ⟨-, h0, h1⟩ := (prunable_iff _).mp hp
        simp only [c0_mk] at h0
        simp only [c1_mk] at h1
        cases h
        cases p with
        | nil => simp [nodeLeafOpt]
        | cons q qs =>
          have hcq : t.child q = none := by
            cases q <;> simp [trie_node_t.child, h0, h1]
          simp [nodeLeafOpt, nodeLeaf_cons, hcq]
      · rw [if_neg hp] at h
        cases h
        cases p with
        | nil => simp [nodeLeafOpt]
        | cons q qs =>
          have hcq : (trie_node_t.mk t.c0 t.c1 none false).child q = t.child q := by
            cases q <;> simp [trie_node_t.child]
          simp [nodeLeafOpt, nodeLeaf_cons, hcq]
  | cons b bs ih =>
    cases hc : t.child b with
    | none => simp [deleteAux, hc] at h
    | some c =>
      cases hd : deleteAux c bs with
      | error e => simp [deleteAux, hc, hd] at h
      | ok c' =>
        simp only [deleteAux, hc, hd] at h
        by_cases hp : prunable (t.setChild b c') = true
        · rw [if_pos hp] at h
          obtain ⟨hleaf, h0, h1⟩ := (prunable_iff _).mp hp
          cases h
          have hchild : ∀ q, (t.setChild b c').child q = none := by
            intro q
            cases hsq : (t.setChild b c').child q with
            | none => rfl
            | some u =>
              exfalso
              cases q <;> simp [trie_node_t.child, h0, h1] at hsq
          have hcb : c' = none := by
            have := hchild b
            rwa [setChild_child_same] at this
          subst hcb
          cases p with
          | nil =>
            rw [setChild_is_leaf] at hleaf
            simp [nodeLeafOpt, hleaf]
          | cons q qs =>
            by_cases hq : q = b
            · subst hq
              by_cases hqs : qs = bs
              · simp [nodeLeafOpt, hqs]
              · have hnl := ih c none hd qs
                rw [if_neg hqs] at hnl
                have hnl' : nodeLeaf c qs = none := by
                  simpa [nodeLeafOpt] using hnl.symm
                simp [nodeLeafOpt, nodeLeaf_cons, hc, hqs, hnl']
            · have hcq : t.child q = none := by
                have := hchild q
                rwa [setChild_child_ne _ _ hq] at this
              simp [nodeLeafOpt, nodeLeaf_cons, hcq, hq]
        · rw [if_neg hp] at h
          cases h
          cases p with
          | nil => simp [nodeLeafOpt]
          | cons q qs =>
            by_cases hq : q = b
            · subst hq
              cases c' with
              | none =>
                have hnl := ih c none hd qs
                by_cases hqs : qs = bs
                · simp [nodeLeafOpt, nodeLeaf_cons, setChild_child_same, hqs]
                · rw [if_neg hqs] at hnl
                  have hnl' : nodeLeaf c qs = none := by
                    simpa [nodeLeafOpt] using hnl.symm
                  simp [nodeLeafOpt, nodeLeaf_cons, setChild_child_same, hqs,
                    hc, hnl']
              | some u =>
                have hnl := ih c (some u) hd qs
                simp only [nodeLeafOpt] at hnl
                by_cases hqs : qs = bs
                · subst hqs
                  rw [if_pos rfl] at hnl
                  simp [nodeLeafOpt, nodeLeaf_cons, setChild_child_same, hnl]
                · rw [if_neg hqs] at hnl
                  simp [nodeLeafOpt, nodeLeaf_cons, setChild_child_same, hqs,
                    hc, hnl]
            · simp [nodeLeafOpt, nodeLeaf_cons, setChild_child_ne _ _ hq, hq]

theorem nodeLeaf_delete_route (t : trie_node_t) (pfx len : Nat)
    (t2 : trie_node_t) (h : delete_route t pfx len = .ok t2) (p : List Bool) :
    nodeLeaf t2 p = if p = ip_to_binary pfx len then none else nodeLeaf t p := by
  unfold delete_route at h
  cases hb : ip_to_binary pfx len with
  | nil =>
    rw [hb] at h
    cases hl : t.is_leaf with
    | false => simp [hl] at h
    | true =>
      simp only [hl, if_true] at h
      cases h
      cases p with
      | nil => simp
      | cons q qs =>
        have hcq : (trie_node_t.mk t.c0 t.c1 none false).child q = t.child q := by
          cases q <;> simp [trie_node_t.child]
        simp [nodeLeaf_cons, hcq]
  | cons b bs =>
    rw [hb] at h
    cases hc : t.child b with
    | none => simp [hc] at h
    | some c =>
      cases hd : deleteAux c bs with
      | error e => simp [hc, hd] at h
      | ok c' =>
        simp only [hc, hd] at h
        cases h
        cases p with
        | nil => simp
        | cons q qs =>
          by_cases hq : q = b
          · subst hq
            have hnl := nodeLeafOpt_deleteAux bs c c' hd qs
            cases c' with
            | none =>
              by_cases hqs : qs = bs
              · simp [nodeLeaf_cons, setChild_child_same, hqs]
              · rw [if_neg hqs] at hnl
                have hnl' : nodeLeaf c qs = none := by
                  simpa [nodeLeafOpt] using hnl.symm
                simp [nodeLeaf_cons, setChild_child_same, hqs, hc, hnl']
            | some u =>
              simp only [nodeLeafOpt] at hnl
              by_cases hqs : qs = bs
              · subst hqs
                rw [if_pos rfl] at hnl
                simp [nodeLeaf_cons, setChild_child_same, hnl]
              · rw [if_neg hqs] at hnl
                simp [nodeLeaf_cons, setChild_child_same, hqs, hc, hnl]
          · simp [nodeLeaf_cons, setChild_child_ne _ _ hq, hq]

theorem deleteAux_terminal (bs : List Bool) (t : trie_node_t)
    (res : Option trie_node_t) (h : deleteAux t bs = .ok res) :
    getNodeOpt res bs = none ∨
      ∃ n, getNodeOpt res bs = some n ∧ n.is_leaf = false ∧ n.data = none := by
  induction bs generalizing t res with
  | nil =>
    cases hl : t.is_leaf with
    | false => simp [deleteAux, hl] at h
    | true =>
      simp only [deleteAux, hl, if_true] at h
      by_cases hp : prunable (trie_node_t.mk t.c0 t.c1 none false) = true
      · rw [if_pos hp] at h
        cases h
        exact Or.inl rfl
      · rw [if_neg hp] at h
        cases h
        exact Or.inr ⟨_, rfl, by simp, by simp⟩
  | cons b bs ih =>
    cases hc : t.child b with
    | none => simp [deleteAux, hc] at h
    | some c =>
      cases hd : deleteAux c bs with
      | error e => simp [deleteAux, hc, hd] at h
      | ok c' =>
        simp only [deleteAux, hc, hd] at h
        by_cases hp : prunable (t.setChild b c') = true
        · rw [if_pos hp] at h
          cases h
          exact Or.inl rfl
        · rw [if_neg hp] at h
          cases h
          have hstep : getNodeOpt (some (t.setChild b c')) (b :: bs) =
              getNodeOpt c' bs := by
            cases c' with
            | none => simp [getNodeOpt, getNode_cons, setChild_child_same]
            | some u => simp [getNodeOpt, getNode_cons, setChild_child_same]
          rw [hstep]
          exact ih c c' hd

theorem delete_route_terminal (t : trie_node_t) (pfx len : Nat)
    (t2 : trie_node_t) (h : delete_route t pfx len = .ok t2) :
    getNode t2 (ip_to_binary pfx len) = none ∨
      ∃ n, getNode t2 (ip_to_binary pfx len) = some n ∧
        n.is_leaf = false ∧ n.data = none := by
  unfold delete_route at h
  cases hb : ip_to_binary pfx len with
  | nil =>
    rw [hb] at h
    cases hl : t.is_leaf with
    | false => simp [hl] at h
    | true =>
      simp only [hl, if_true] at h
      cases h
      exact Or.inr ⟨_, rfl, by simp, by simp⟩
  | cons b bs =>
    rw [hb] at h
    cases hc : t.child b with
    | none => simp [hc] at h
    | some c =>
      cases hd : deleteAux c bs with
      | error e => simp [hc, hd] at h
      | ok c' =>
        simp only [hc, hd] at h
        cases h
        have hstep : getNode (t.setChild b c') (b :: bs) = getNodeOpt c' bs := by
          cases c' with
          | none => simp [getNodeOpt, getNode_cons, setChild_child_same]
          | some u => simp [getNodeOpt, getNode_cons, setChild_child_same]
        rw [hstep]
        exact deleteAux_terminal bs c c' hd

/-! Which record ends up anchored at each path after a list of
inserts. -/

theorem nodeLeaf_foldl_insert (routes : List route_entry_t)
    (t : trie_node_t) (p : List Bool) :
    nodeLeaf (routes.foldl insert_route t) p =
      routes.foldl (anchorStep p) (nodeLeaf t p) := by
  induction routes generalizing t with
  | nil => rfl
  | cons r rs ih =>
    simp only [List.foldl_cons]
    rw [ih]
    congr 1
    rw [nodeLeaf_insert_route]
    rfl

theorem foldl_anchorStep_of_not_mem (rs : List route_entry_t) (p : List Bool)
    (acc : Option (Option route_entry_t)) (h : ∀ r ∈ rs, routeBits r ≠ p) :
    rs.foldl (anchorStep p) acc = acc := by
  induction rs generalizing acc with
  | nil => rfl
  | cons r0 rs ih =>
    simp only [List.foldl_cons]
    have hne : anchorStep p acc r0 = acc := by
      have h0 := h r0 (by simp)
      simp only [anchorStep, if_neg (Ne.symm h0)]
    rw [hne]
    exact ih acc fun r hr => h r (List.mem_cons_of_mem _ hr)

theorem foldl_anchorStep_of_mem (rs : List route_entry_t) (p : List Bool)
    (r : route_entry_t) (hmem : r ∈ rs) (hp : routeBits r = p)
    (hnod : (rs.map routeBits).Nodup) (acc : Option (Option route_entry_t)) :
    rs.foldl (anchorStep p) acc = some (some r) := by
  induction rs generalizing acc with
  | nil => cases hmem
  | cons r0 rs ih =>
    rw [List.map_cons, List.nodup_cons] at hnod
    obtain ⟨hnot, hnod'⟩ := hnod
    simp only [List.foldl_cons]
    rcases List.mem_cons.mp hmem with heq | hmem'
    · subst heq
      rw [show anchorStep p acc r = some (some r) from by simp [anchorStep, hp]]
      apply foldl_anchorStep_of_not_mem
      intro r' hr' hcon
      apply hnot
      rw [hp, ← hcon]
      exact List.mem_map_of_mem routeBits hr'
    · exact ih hmem' hnod' _

theorem foldl_anchorStep_cases (rs : List route_entry_t) (p : List Bool)
    (acc : Option (Option route_entry_t)) :
    rs.foldl (anchorStep p) acc = acc ∨
      ∃ r ∈ rs, routeBits r = p ∧
        rs.foldl (anchorStep p) acc = some (some r) := by
  induction rs generalizing acc with
  | nil => exact Or.inl rfl
  | cons r0 rs ih =>
    simp only [List.foldl_cons]
    rcases ih (anchorStep p acc r0) with hflat | ⟨r, hmem, hbits, heq⟩
    · by_cases h0 : p = routeBits r0
      · refine Or.inr ⟨r0, by simp, h0.symm, ?_⟩
        rw [hflat]
        simp [anchorStep, h0]
      · rw [hflat]
        rw [show anchorStep p acc r0 = acc from by simp [anchorStep, h0]]
        exact Or.inl rfl
    · exact Or.inr ⟨r, List.mem_cons_of_mem _ hmem, hbits, heq⟩

theorem nodeLeaf_buildTrie_of_mem (routes : List route_entry_t)
    (r : route_entry_t) (hmem : r ∈ routes)
    (hnod : (routes.map routeBits).Nodup) :
    nodeLeaf (buildTrie routes) (routeBits r) = some (some r) := by
  rw [buildTrie, nodeLeaf_foldl_insert]
  exact foldl_anchorStep_of_mem routes (routeBits r) r hmem rfl hnod _

theorem nodeLeaf_buildTrie_of_no_mem (routes : List route_entry_t)
    (p : List Bool) (h : ∀ r ∈ routes, routeBits r ≠ p) :
    nodeLeaf (buildTrie routes) p = none := by
  rw [buildTrie, nodeLeaf_foldl_insert, foldl_anchorStep_of_not_mem routes p _ h]
  simp

theorem nodeLeaf_buildTrie_mem (routes : List route_entry_t) (p : List Bool)
    (v : Option route_entry_t) (h : nodeLeaf (buildTrie routes) p = some v) :
    ∃ r ∈ routes, routeBits r = p ∧ v = some r := by
  rw [buildTrie, nodeLeaf_foldl_insert] at h
  rcases foldl_anchorStep_cases routes p (nodeLeaf create_trie_node p) with
    hflat | ⟨r, hmem, hbits, heq⟩
  · rw [hflat] at h
    simp at h
  · rw [heq] at h
    exact ⟨r, hmem, hbits, by injection h with h2; exact h2.symm⟩

/-! What a failed (out-of-memory) insert leaves behind. -/

theorem insertAuxAlloc_fail (bs : List Bool) (r : route_entry_t)
    (t : trie_node_t) (fuel : Nat)
    (h : (insertAuxAlloc r t bs fuel).1 = false) :
    (insertAuxAlloc r t bs fuel).2.1.is_leaf = t.is_leaf ∧
    (insertAuxAlloc r t bs fuel).2.1.data = t.data ∧
    (∀ p, nodeLeaf (insertAuxAlloc r t bs fuel).2.1 p = nodeLeaf t p) ∧
    (∀ p n, getNode t p = none →
      getNode (insertAuxAlloc r t bs fuel).2.1 p = some n →
      n.is_leaf = false ∧ n.data = none) := by
  induction bs generalizing t fuel with
  | nil => simp [insertAuxAlloc] at h
  | cons b bs ih =>
    cases hc : t.child b with
    | some c =>
      simp only [insertAuxAlloc, hc] at h ⊢
      obtain ⟨ih1, ih2, ih3, ih4⟩ := ih c fuel h
      refine ⟨by simp, by simp, ?_, ?_⟩
      · intro p
        cases p with
        | nil => simp
        | cons q qs =>
          by_cases hq : q = b
          · subst hq
            simp [nodeLeaf_cons, setChild_child_same, hc, ih3 qs]
          · simp [nodeLeaf_cons, setChild_child_ne _ _ hq]
      · intro p n hnone hsome
        cases p with
        | nil => simp at hnone
        | cons q qs =>
          by_cases hq : q = b
          · subst hq
            rw [getNode_cons, setChild_child_same] at hsome
            rw [getNode_cons, hc] at hnone
            exact ih4 qs n hnone hsome
          · rw [getNode_cons, setChild_child_ne _ _ hq] at hsome
            rw [getNode_cons] at hnone
            cases hcq : t.child q with
            | none => rw [hcq] at hsome; exact absurd hsome (by simp)
            | some u =>
              rw [hcq] at hsome hnone
              rw [hnone] at hsome
              exact absurd hsome (by simp)
    | none =>
      cases fuel with
      | zero =>
        simp only [insertAuxAlloc, hc] at h ⊢
        refine ⟨by simp, by simp, fun p => by simp, ?_⟩
        intro p n hnone hsome
        rw [hnone] at hsome
        exact absurd hsome (by simp)
      | succ f =>
        simp only [insertAuxAlloc, hc] at h ⊢
        obtain ⟨ih1, ih2, ih3, ih4⟩ := ih create_trie_node f h
        refine ⟨by simp, by simp, ?_, ?_⟩
        · intro p
          cases p with
          | nil => simp
          | cons q qs =>
            by_cases hq : q = b
            · subst hq
              simp [nodeLeaf_cons, setChild_child_same, hc, ih3 qs]
            · simp [nodeLeaf_cons, setChild_child_ne _ _ hq]
        · intro p n hnone hsome
          cases p with
          | nil => simp at hnone
          | cons q qs =>
            by_cases hq : q = b
            · subst hq
              rw [getNode_cons, setChild_child_same] at hsome
              cases qs with
              | nil =>
                simp only [getNode_nil] at hsome
                cases hsome
                refine ⟨?_, ?_⟩
                · rw [ih1]; rfl
                · rw [ih2]; rfl
              | cons q' qs' =>
                exact ih4 (q' :: qs') n (by simp) hsome
            · rw [getNode_cons, setChild_child_ne _ _ hq] at hsome
              rw [getNode_cons] at hnone
              cases hcq : t.child q with
              | none => rw [hcq] at hsome; exact absurd hsome (by simp)
              | some u =>
                rw [hcq] at hsome hnone
                rw [hnone] at hsome
                exact absurd hsome (by simp)

theorem insert_route_alloc_fail (t : trie_node_t) (r : route_entry_t)
    (fuel : Nat) (h : (insert_route_alloc t r fuel).1 = false) :
    (∀ p, nodeLeaf (insert_route_alloc t r fuel).2 p = nodeLeaf t p) ∧
    (∀ p n, getNode t p = none →
      getNode (insert_route_alloc t r fuel).2 p = some n →
      n.is_leaf = false ∧ n.data = none) ∧
    (∀ a, lookup_route_optimized (insert_route_alloc t r fuel).2 a =
      lookup_route_optimized t a) := by
  have h' : (insertAuxAlloc r t (ip_to_binary r.pfx r.prefix_len) fuel).1 =
      false := h
  obtain ⟨-, -, h3, h4⟩ :=
    insertAuxAlloc_fail (ip_to_binary r.pfx r.prefix_len) r t fuel h'
  exact ⟨fun p => h3 p, fun p n => h4 p n,
    fun a => lookup_congr _ _ (fun b p => h3 (b :: p)) a⟩

/-! Preservation of the pruning invariant (`goodBelow`). -/

theorem goodNode_of_child (t : trie_node_t) (b : Bool) (u : trie_node_t)
    (h : t.child b = some u) : goodNode t := by
  cases b with
  | false =>
    have h0 : t.c0 = some u := by simpa [trie_node_t.child] using h
    exact Or.inr (Or.inl (by simp [h0]))
  | true =>
    have h1 : t.c1 = some u := by simpa [trie_node_t.child] using h
    exact Or.inr (Or.inr (by simp [h1]))

theorem goodNode_of_not_prunable (t : trie_node_t)
    (h : ¬ prunable t = true) : goodNode t := by
  rw [prunable_iff] at h
  cases hl : t.is_leaf with
  | true => exact Or.inl hl
  | false =>
    cases h0 : t.c0 with
    | some u => exact Or.inr (Or.inl (by simp [h0]))
    | none =>
      cases h1 : t.c1 with
      | some u => exact Or.inr (Or.inr (by simp [h1]))
      | none => exact absurd ⟨hl, h0, h1⟩ h

theorem goodBelow_child (t : trie_node_t) (b : Bool) (c : trie_node_t)
    (hg : goodBelow t) (hc : t.child b = some c) :
    goodBelow c ∧ goodNode c := by
  constructor
  · intro q qs n hn
    exact hg b (q :: qs) n (by rw [getNode_cons, hc]; exact hn)
  · exact hg b [] c (by rw [getNode_cons, hc]; rfl)

theorem goodBelow_create_trie_node : goodBelow create_trie_node := by
  intro b bs n hn
  simp at hn

theorem goodBelow_insertAux (bs : List Bool) (r : route_entry_t)
    (t : trie_node_t) (hg : goodBelow t) :
    goodBelow (insertAux r t bs) ∧ goodNode (insertAux r t bs) := by
  induction bs generalizing t with
  | nil =>
    refine ⟨?_, Or.inl (by simp [insertAux])⟩
    intro b bs n hn
    rw [insertAux, getNode_cons] at hn
    have hch : (trie_node_t.mk t.c0 t.c1 (some r) true).child b = t.child b := by
      cases b <;> simp [trie_node_t.child]
    rw [hch] at hn
    exact hg b bs n (by rw [getNode_cons]; exact hn)
  | cons b bs ih =>
    cases hc : t.child b with
    | some c =>
      obtain ⟨hgc, -⟩ := goodBelow_child t _ c hg hc
      obtain ⟨ihg, ihn⟩ := ih c hgc
      rw [insertAux]
      rw [hc]
      refine ⟨?_, goodNode_of_child _ b _ (setChild_child_same t b _)⟩
      intro q qs n hn
      rw [getNode_cons] at hn
      by_cases hq : q = b
      · subst hq
        rw [setChild_child_same] at hn
        cases qs with
        | nil =>
          simp only [getNode_nil] at hn
          cases hn
          exact ihn
        | cons q' qs' => exact ihg q' qs' n hn
      · rw [setChild_child_ne _ _ hq] at hn
        exact hg q qs n (by rw [getNode_cons]; exact hn)
    | none =>
      obtain ⟨ihg, ihn⟩ := ih create_trie_node goodBelow_create_trie_node
      rw [insertAux]
      rw [hc]
      refine ⟨?_, goodNode_of_child _ b _ (setChild_child_same t b _)⟩
      intro q qs n hn
      rw [getNode_cons] at hn
      by_cases hq : q = b
      · subst hq
        rw [setChild_child_same] at hn
        cases qs with
        | nil =>
          simp only [getNode_nil] at hn
          cases hn
          exact ihn
        | cons q' qs' => exact ihg q' qs' n hn
      · rw [setChild_child_ne _ _ hq] at hn
        exact hg q qs n (by rw [getNode_cons]; exact hn)

theorem goodBelow_insert_route (t : trie_node_t) (r : route_entry_t)
    (hg : goodBelow t) : goodBelow (insert_route t r) :=
  (goodBelow_insertAux (ip_to_binary r.pfx r.prefix_len) r t hg).1

theorem goodBelow_deleteAux (bs : List Bool) (t : trie_node_t)
    (res : Option trie_node_t) (h : deleteAux t bs = .ok res)
    (hg : goodBelow t) :
    res = none ∨ ∃ t', res = some t' ∧ goodNode t' ∧ goodBelow t' := by
  induction bs generalizing t res with
  | nil =>
    cases hl : t.is_leaf with
    | false => simp [deleteAux, hl] at h
    | true =>
      simp only [deleteAux, hl, if_true] at h
      by_cases hp : prunable (trie_node_t.mk t.c0 t.c1 none false) = true
      · rw [if_pos hp] at h
        cases h
        exact Or.inl rfl
      · rw [if_neg hp] at h
        cases h
        refine Or.inr ⟨_, rfl, goodNode_of_not_prunable _ hp, ?_⟩
        intro q qs n hn
        rw [getNode_cons] at hn
        have hch : (trie_node_t.mk t.c0 t.c1 none false).child q = t.child q := by
          cases q <;> simp [trie_node_t.child]
        rw [hch] at hn
        exact hg q qs n (by rw [getNode_cons]; exact hn)
  | cons b bs ih =>
    cases hc : t.child b with
    | none => simp [deleteAux, hc] at h
    | some c =>
      cases hd : deleteAux c bs with
      | error e => simp [deleteAux, hc, hd] at h
      | ok c' =>
        simp only [deleteAux, hc, hd] at h
        by_cases hp : prunable (t.setChild b c') = true
        · rw [if_pos hp] at h
          cases h
          exact Or.inl rfl
        · rw [if_neg hp] at h
          cases h
          refine Or.inr ⟨_, rfl, goodNode_of_not_prunable _ hp, ?_⟩
          intro q qs n hn
          rw [getNode_cons] at hn
          by_cases hq : q = b
          · subst hq
            rw [setChild_child_same] at hn
            obtain ⟨hgc, -⟩ := goodBelow_child t _ c hg hc
            rcases ih c c' hd hgc with hcn | ⟨u, hu, hun, hug⟩
            · rw [hcn] at hn
              exact absurd hn (by simp)
            · rw [hu] at hn
              cases qs with
              | nil =>
                simp only [getNode_nil] at hn
                cases hn
                exact hun
              | cons q' qs' => exact hug q' qs' n hn
          · rw [setChild_child_ne _ _ hq] at hn
            exact hg q qs n (by rw [getNode_cons]; exact hn)

theorem goodBelow_delete_route (t : trie_node_t) (pfx len : Nat)
    (t2 : trie_node_t) (h : delete_route t pfx len = .ok t2)
    (hg : goodBelow t) : goodBelow t2 := by
  unfold delete_route at h
  cases hb : ip_to_binary pfx len with
  | nil =>
    rw [hb] at h
    cases hl : t.is_leaf with
    | false => simp [hl] at h
    | true =>
      simp only [hl, if_true] at h
      cases h
      intro q qs n hn
      rw [getNode_cons] at hn
      have hch : (trie_node_t.mk t.c0 t.c1 none false).child q = t.child q := by
        cases q <;> simp [trie_node_t.child]
      rw [hch] at hn
      exact hg q qs n (by rw [getNode_cons]; exact hn)
  | cons b bs =>
    rw [hb] at h
    cases hc : t.child b with
    | none => simp [hc] at h
    | some c =>
      cases hd : deleteAux c bs with
      | error e => simp [hc, hd] at h
      | ok c' =>
        simp only [hc, hd] at h
        cases h
        intro q qs n hn
        rw [getNode_cons] at hn
        by_cases hq : q = b
        · subst hq
          rw [setChild_child_same] at hn
          obtain ⟨hgc, -⟩ := goodBelow_child t _ c hg hc
          rcases goodBelow_deleteAux bs c c' hd hgc with hcn | ⟨u, hu, hun, hug⟩
          · rw [hcn] at hn
            exact absurd hn (by simp)
          · rw [hu] at hn
            cases qs with
            | nil =>
              simp only [getNode_nil] at hn
              cases hn
              exact hun
            | cons q' qs' => exact hug q' qs' n hn
        · rw [setChild_child_ne _ _ hq] at hn
          exact hg q qs n (by rw [getNode_cons]; exact hn)

theorem goodBelow_apply_op (t : trie_node_t) (op : trie_op)
    (hg : goodBelow t) : goodBelow (apply_op t op) := by
  cases op with
  | ins r => exact goodBelow_insert_route t r hg
  | del p l =>
    rw [apply_op]
    cases h : delete_route t p l with
    | error e => exact hg
    | ok t2 => exact goodBelow_delete_route t p l t2 h hg

theorem goodBelow_foldl_apply_op (ops : List trie_op) (t : trie_node_t)
    (hg : goodBelow t) : goodBelow (ops.foldl apply_op t) := by
  induction ops generalizing t with
  | nil => exact hg
  | cons op ops ih =>
    simp only [List.foldl_cons]
    exact ih (apply_op t op) (goodBelow_apply_op t op hg)

theorem goodBelow_run_ops (ops : List trie_op) : goodBelow (run_ops ops) :=
  goodBelow_foldl_apply_op ops create_trie_node goodBelow_create_trie_node

/-! Behaviour of the lookup cache. -/

theorem cache_scan_eq_none_iff (es : List route_cache_entry_t) (ip : Nat)
    (now ttl : Int) :
    cache_scan es ip now ttl = none ↔
      ∀ e ∈ es, ¬(e.ip = ip ∧ now - e.timestamp < ttl) := by
  induction es with
  | nil => simp [cache_scan]
  | cons e es ih =>
    by_cases hcond : e.ip = ip ∧ now - e.timestamp < ttl
    · simp [cache_scan, hcond]
    · rw [cache_scan, if_neg hcond, ih]
      constructor
      · intro hall e' he'
        rcases List.mem_cons.mp he' with heq | hmem
        · subst heq; exact hcond
        · exact hall e' hmem
      · intro hall e' he'
        exact hall e' (List.mem_cons_of_mem _ he')

theorem cache_scan_some (es : List route_cache_entry_t) (ip : Nat)
    (now ttl : Int) (r : route_entry_t)
    (h : cache_scan es ip now ttl = some r) :
    ∃ e ∈ es, e.ip = ip ∧ now - e.timestamp < ttl ∧ e.route = r := by
  induction es with
  | nil => simp [cache_scan] at h
  | cons e es ih =>
    by_cases hcond : e.ip = ip ∧ now - e.timestamp < ttl
    · rw [cache_scan, if_pos hcond] at h
      injection h with h2
      exact ⟨e, by simp, hcond.1, hcond.2, h2⟩
    · rw [cache_scan, if_neg hcond] at h
      obtain ⟨e', hmem, h1, h2, h3⟩ := ih h
      exact ⟨e', List.mem_cons_of_mem _ hmem, h1, h2, h3⟩

theorem lookup_with_cache_hit (root : trie_node_t) (cache : route_cache_t)
    (ip : Nat) (ttl now : Int) (r : route_entry_t)
    (h : cache_scan cache.entries ip now ttl = some r) :
    lookup_with_cache root cache ip ttl now = (some r, cache) := by
  simp [lookup_with_cache, h]

theorem lookup_with_cache_miss (root : trie_node_t) (cache : route_cache_t)
    (ip : Nat) (ttl now : Int)
    (h : cache_scan cache.entries ip now ttl = none) :
    (lookup_with_cache root cache ip ttl now).1 =
      lookup_route_optimized root ip := by
  simp only [lookup_with_cache, h]
  cases hr : lookup_route_optimized root ip with
  | none => rfl
  | some r =>
    by_cases hlen : cache.entries.length < cache.capacity <;> simp [hlen]

theorem lookup_with_cache_snd_cases (root : trie_node_t)
    (cache : route_cache_t) (ip : Nat) (ttl now : Int) :
    (lookup_with_cache root cache ip ttl now).2 = cache ∨
      (cache.entries.length < cache.capacity ∧
       cache_scan cache.entries ip now ttl = none ∧
       ∃ r, lookup_route_optimized root ip = some r ∧
         (lookup_with_cache root cache ip ttl now).2 =
           { cache with
               entries := cache.entries ++
                 [{ ip := ip, route := r, timestamp := now }] }) := by
  cases hs : cache_scan cache.entries ip now ttl with
  | some r => simp [lookup_with_cache, hs]
  | none =>
    cases hr : lookup_route_optimized root ip with
    | none => simp [lookup_with_cache, hs, hr]
    | some r =>
      by_cases hlen : cache.entries.length < cache.capacity
      · exact Or.inr ⟨hlen, rfl, r, rfl, by simp [lookup_with_cache, hs, hr, hlen]⟩
      · simp [lookup_with_cache, hs, hr, hlen]

theorem lookup_with_cache_capacity (root : trie_node_t)
    (cache : route_cache_t) (ip : Nat) (ttl now : Int) :
    (lookup_with_cache root cache ip ttl now).2.capacity = cache.capacity := by
  rcases lookup_with_cache_snd_cases root cache ip ttl now with h | ⟨-, -, r, -, h⟩
  · rw [h]
  · rw [h]

theorem lookup_with_cache_full (root : trie_node_t) (cache : route_cache_t)
    (ip : Nat) (ttl now : Int) (h : cache.capacity ≤ cache.entries.length) :
    (lookup_with_cache root cache ip ttl now).2 = cache := by
  rcases lookup_with_cache_snd_cases root cache ip ttl now with
    hcase | ⟨hlen, -, -⟩
  · exact hcase
  · omega

theorem lookup_with_cache_len (root : trie_node_t) (cache : route_cache_t)
    (ip : Nat) (ttl now : Int) (h : cache.entries.length ≤ cache.capacity) :
    (lookup_with_cache root cache ip ttl now).2.entries.length ≤
      cache.capacity := by
  rcases lookup_with_cache_snd_cases root cache ip ttl now with
    hcase | ⟨hlen, -, r, -, hcase⟩
  · rw [hcase]; exact h
  · rw [hcase]; simp; omega

theorem lookup_with_cache_append (root : trie_node_t) (cache : route_cache_t)
    (ip : Nat) (ttl now : Int) :
    (lookup_with_cache root cache ip ttl now).2.entries = cache.entries ∨
      ∃ e, (lookup_with_cache root cache ip ttl now).2.entries =
        cache.entries ++ [e] := by
  rcases lookup_with_cache_snd_cases root cache ip ttl now with
    hcase | ⟨-, -, r, -, hcase⟩
  · exact Or.inl (by rw [hcase])
  · exact Or.inr ⟨_, by rw [hcase]⟩

theorem run_queries_invariant (qs : List cache_query) (cache : route_cache_t)
    (h : cache.entries.length ≤ cache.capacity) :
    (run_queries cache qs).capacity = cache.capacity ∧
      (run_queries cache qs).entries.length ≤ cache.capacity := by
  induction qs generalizing cache with
  | nil => exact ⟨rfl, h⟩
  | cons q qs ih =>
    have hcap := lookup_with_cache_capacity q.root cache q.ip q.ttl q.now
    have hlen := lookup_with_cache_len q.root cache q.ip q.ttl q.now h
    obtain ⟨ih1, ih2⟩ := ih ((lookup_with_cache q.root cache q.ip q.ttl q.now).2)
      (by rw [hcap]; exact hlen)
    constructor
    · rw [show run_queries cache (q :: qs) =
        run_queries ((lookup_with_cache q.root cache q.ip q.ttl q.now).2) qs
        from rfl]
      rw [ih1, hcap]
    · rw [show run_queries cache (q :: qs) =
        run_queries ((lookup_with_cache q.root cache q.ip q.ttl q.now).2) qs
        from rfl]
      rw [hcap] at ih2
      exact ih2

/-! Bridging lemma used to state delete's failure condition in the
claim's own terms. -/

theorem nodeLeaf_eq_none_iff (p : List Bool) (t : trie_node_t) :
    nodeLeaf t p = none ↔
      getNode t p = none ∨
        ∃ n, getNode t p = some n ∧ n.is_leaf = false := by
  induction p generalizing t with
  | nil =>
    cases hl : t.is_leaf with
    | true =>
      simp only [nodeLeaf_nil, hl, if_true, getNode_nil]
      constructor
      · intro hcon; exact absurd hcon (by simp)
      · rintro (hcon | ⟨n, hn, hnl⟩)
        · exact absurd hcon (by simp)
        · injection hn with hn2; rw [← hn2] at hnl; rw [hl] at hnl; cases hnl
    | false =>
      simp only [nodeLeaf_nil, hl, getNode_nil]
      constructor
      · intro _; exact Or.inr ⟨t, rfl, hl⟩
      · intro _; simp
  | cons b bs ih =>
    cases hc : t.child b with
    | none => simp [nodeLeaf_cons, getNode_cons, hc]
    | some c => simp [nodeLeaf_cons, getNode_cons, hc, ih]

/-- C4 counterexample: an `insert_route` run in which the first node
allocation succeeds and the second fails (the claim explicitly covers
such partial inserts) leaves a reachable node, at depth 1, that is
simultaneously non-leaf and childless — the pruning invariant as stated
is violated. -/
theorem C4_counterexample :
    (insert_route_alloc create_trie_node (mkRoute 0 2 1) 1).1 = false ∧
    getNode (insert_route_alloc create_trie_node (mkRoute 0 2 1) 1).2
      [false] = some (trie_node_t.mk none none none false) ∧
    (trie_node_t.mk none none none false).is_leaf = false ∧
    (trie_node_t.mk none none none false).c0 = none ∧
    (trie_node_t.mk none none none false).c1 = none :=
  ⟨rfl, rfl, rfl, rfl, rfl⟩

/-- C4 (amended): after every sequence of `insert_route` calls in which
every allocation succeeds and `delete_route` calls (successful or not),
starting from a fresh root, no node reachable from the root by a
nonempty path is simultaneously non-leaf and childless.  (The root
itself is exempt: the empty trie's root is non-leaf and childless by
construction, and a failed partial insert can leave a non-leaf childless
node behind — see the counterexample.) -/
theorem C4_pruning_invariant (ops : List trie_op) (b : Bool) (bs : List Bool)
    (n : trie_node_t) (h : getNode (run_ops ops) (b :: bs) = some n) :
    n.is_leaf = true ∨ n.c0 ≠ none ∨ n.c1 ≠ none :=
  goodBelow_run_ops ops b bs n h

/-- C4 witness: a one-insert sequence, checked at the node the insert
creates at depth 1. -/
theorem C4_witness :
    (trie_node_t.mk none none (some (mkRoute 0 1 3)) true).is_leaf = true ∨
    (trie_node_t.mk none none (some (mkRoute 0 1 3)) true).c0 ≠ none ∨
    (trie_node_t.mk none none (some (mkRoute 0 1 3)) true).c1 ≠ none :=
  C4_pruning_invariant [trie_op.ins (mkRoute 0 1 3)] false [] _ rfl

/-- C5: `delete_route(prefix, prefix_len)` returns `-1` exactly when the
`prefix_len`-bit path is missing a child or its terminal node is not a
leaf; on success the terminal node's leaf flag and record are cleared
(or the node itself is pruned away), the deleted path carries no leaf,
and every other path's leaf information is untouched.  (On failure the C
code mutates nothing: every `-1` return precedes the first write, which
is why the embedded `delete_route` returns the error without a modified
trie.) -/
theorem C5_delete_not_found (t : trie_node_t) (pfx len : Nat)
    (hlen : len ≤ 32) :
    (delete_route t pfx len = .error () ↔
      getNode t (ip_to_binary pfx len) = none ∨
        ∃ n, getNode t (ip_to_binary pfx len) = some n ∧
          n.is_leaf = false) ∧
    (∀ t2, delete_route t pfx len = .ok t2 →
      (getNode t2 (ip_to_binary pfx len) = none ∨
        ∃ n, getNode t2 (ip_to_binary pfx len) = some n ∧
          n.is_leaf = false ∧ n.data = none) ∧
      (∀ p, nodeLeaf t2 p =
        if p = ip_to_binary pfx len then none else nodeLeaf t p)) := by
  constructor
  · rw [delete_route_error_iff, nodeLeaf_eq_none_iff]
  · intro t2 h
    exact ⟨delete_route_terminal t pfx len t2 h,
      nodeLeaf_delete_route t pfx len t2 h⟩

/-- C5 witness: deleting from the empty trie fails with `NotFound`
because the one-bit path is missing. -/
theorem C5_witness : delete_route create_trie_node 0 1 = Except.error () :=
  (C5_delete_not_found create_trie_node 0 1 (by decide)).1.mpr (Or.inl rfl)

/-- C8: when `insert_route` fails because a node allocation fails
partway along the path, every node it created is initialized exactly as
`create_trie_node` leaves it (leaf flag clear, no record), the leaf
information of every path is unchanged, and every subsequent
`lookup_route_optimized` on the resulting trie returns exactly what it
returned before the failed insert. -/
theorem C8_partial_insert_safety (t : trie_node_t) (r : route_entry_t)
    (fuel : Nat) (h : (insert_route_alloc t r fuel).1 = false) :
    (∀ p n, getNode t p = none →
      getNode (insert_route_alloc t r fuel).2 p = some n →
      n.is_leaf = false ∧ n.data = none) ∧
    (∀ p, nodeLeaf (insert_route_alloc t r fuel).2 p = nodeLeaf t p) ∧
    (∀ a, lookup_route_optimized (insert_route_alloc t r fuel).2 a =
      lookup_route_optimized t a) := by
  obtain ⟨h1, h2, h3⟩ := insert_route_alloc_fail t r fuel h
  exact ⟨h2, h1, h3⟩

/-- C8 witness: inserting a /2 route into the empty trie with fuel for
only one allocation fails, and a lookup afterwards behaves as before. -/
theorem C8_witness :
    (insert_route_alloc create_trie_node (mkRoute 0 2 1) 1).1 = false ∧
    lookup_route_optimized
      (insert_route_alloc create_trie_node (mkRoute 0 2 1) 1).2 5 =
      lookup_route_optimized create_trie_node 5 :=
  ⟨by decide,
   (C8_partial_insert_safety create_trie_node (mkRoute 0 2 1) 1
     (by decide)).2.2 5⟩

/-- C9: a route with `prefix_len = 0` is attached to the root itself
(the root becomes a leaf holding the record, its children untouched),
yet every lookup on the resulting trie returns exactly what it returned
before the insert, and any record a lookup does return is anchored at a
node reached by a nonempty bit path — so a /0 route is never returned. -/
theorem C9_default_route_invisible (t : trie_node_t) (r : route_entry_t)
    (hlen : r.prefix_len = 0) :
    (insert_route t r).is_leaf = true ∧
    (insert_route t r).data = some r ∧
    (insert_route t r).c0 = t.c0 ∧
    (insert_route t r).c1 = t.c1 ∧
    (∀ a, lookup_route_optimized (insert_route t r) a =
      lookup_route_optimized t a) ∧
    (∀ a x, lookup_route_optimized (insert_route t r) a = some x →
      ∃ d, d < 32 ∧
        nodeLeaf (insert_route t r) (ip_to_binary a (d + 1)) =
          some (some x)) := by
  have hb : routeBits r = [] := by
    rw [routeBits, hlen]
    rfl
  have ht : insert_route t r = trie_node_t.mk t.c0 t.c1 (some r) true := by
    rw [insert_route, show ip_to_binary r.pfx r.prefix_len = [] from hb]
    rfl
  refine ⟨by rw [ht]; rfl, by rw [ht]; rfl, by rw [ht]; rfl, by rw [ht]; rfl,
    ?_, fun a x h => lookup_anchored _ a x h⟩
  intro a
  apply lookup_congr
  intro b p
  rw [nodeLeaf_insert_route, if_neg (by rw [hb]; simp)]

/-- C9 witness: a /0 route inserted into the empty trie sits at the root
but is invisible to a lookup of an address it covers. -/
theorem C9_witness :
    (insert_route create_trie_node (mkRoute 7 0 1)).is_leaf = true ∧
    lookup_route_optimized (insert_route create_trie_node (mkRoute 7 0 1)) 7 =
      lookup_route_optimized create_trie_node 7 :=
  ⟨(C9_default_route_invisible create_trie_node (mkRoute 7 0 1) rfl).1,
   (C9_default_route_invisible create_trie_node (mkRoute 7 0 1)
     rfl).2.2.2.2.1 7⟩

/-- C2 counterexample: the claim quantifies over every starting trie.
Starting from a trie that already holds a route at `0/1`, inserting a
second record with the same prefix and length and then successfully
deleting that (prefix, length) wipes the pre-existing route: the lookup
of address 0 returned the old record before the insert and returns NULL
after the insert/delete pair. -/
theorem C2_counterexample :
    lookup_route_optimized (buildTrie [mkRoute 0 1 1]) 0 =
      some (mkRoute 0 1 1) ∧
    (delete_route (insert_route (buildTrie [mkRoute 0 1 1]) (mkRoute 0 1 2))
        0 1).map (fun t2 => lookup_route_optimized t2 0) =
      Except.ok none := by
  constructor
  · decide
  · rfl

/-- C2 (amended): inserting a record and then deleting its exact
(prefix, prefix_len) restores the lookup behaviour of the starting trie
for every address, provided no route is currently anchored at that exact
node (node absent or not a leaf) in the starting trie; the delete after
the insert always succeeds. -/
theorem C2_insert_delete_inverse (t : trie_node_t) (r : route_entry_t)
    (hlen : r.prefix_len ≤ 32)
    (hfresh : nodeLeaf t (routeBits r) = none) :
    ∃ t2, delete_route (insert_route t r) r.pfx r.prefix_len = .ok t2 ∧
      ∀ a, lookup_route_optimized t2 a = lookup_route_optimized t a := by
  have hleaf : nodeLeaf (insert_route t r) (routeBits r) = some (some r) := by
    rw [nodeLeaf_insert_route]
    simp
  rcases delete_route_error_or_ok (insert_route t r) r.pfx r.prefix_len with
    herr | ⟨t2, hok⟩
  · rw [delete_route_error_iff] at herr
    rw [show ip_to_binary r.pfx r.prefix_len = routeBits r from rfl] at herr
    rw [hleaf] at herr
    exact absurd herr (by simp)
  · refine ⟨t2, hok, fun a => ?_⟩
    apply lookup_congr
    intro b p
    rw [nodeLeaf_delete_route _ _ _ _ hok,
      show ip_to_binary r.pfx r.prefix_len = routeBits r from rfl,
      nodeLeaf_insert_route]
    by_cases hp : (b :: p) = routeBits r
    · rw [if_pos hp, hp, hfresh]
    · rw [if_neg hp, if_neg hp]

/-- C2 witness: insert `0/1` into the empty trie, delete it again, and
every lookup behaves as on the empty trie. -/
theorem C2_witness :
    ∃ t2, delete_route (insert_route create_trie_node (mkRoute 0 1 7)) 0 1 =
        .ok t2 ∧
      ∀ a, lookup_route_optimized t2 a =
        lookup_route_optimized create_trie_node a :=
  C2_insert_delete_inverse create_trie_node (mkRoute 0 1 7) (by decide)
    (by decide)

/-- C3 counterexample: the claim quantifies over every starting trie and
promises that a matching address resolves to the second record's
payload.  Starting from a trie holding a more specific route `0/2`,
inserting two records at `0/1` (same prefix and length, different
payloads) and looking up address 0 — which matches the `0/1` records —
returns the `0/2` record, not the second `0/1` record. -/
theorem C3_counterexample :
    routeMatches (mkRoute 0 1 2) 0 ∧
    lookup_route_optimized
      (insert_route (insert_route (buildTrie [mkRoute 0 2 9])
        (mkRoute 0 1 1)) (mkRoute 0 1 2)) 0 = some (mkRoute 0 2 9) ∧
    mkRoute 0 2 9 ≠ mkRoute 0 1 2 := by
  refine ⟨by decide, by decide, by decide⟩

/-- C3 (amended): after inserting two records with identical
(prefix, prefix_len) but different payloads — the first not being
anchored anywhere in the starting trie — no lookup ever returns the
first record, and an address matching the shared prefix resolves to the
second record whenever no strictly longer prefix in the resulting trie
also matches the address (last-writer-wins at the exact node). -/
theorem C3_overwrite (t : trie_node_t) (r1 r2 : route_entry_t)
    (hpfx : r1.pfx = r2.pfx) (hplen : r1.prefix_len = r2.prefix_len)
    (hne : r1 ≠ r2)
    (hnot : ∀ p, nodeLeaf t p ≠ some (some r1)) (a : Nat) :
    lookup_route_optimized (insert_route (insert_route t r1) r2) a ≠
      some r1 ∧
    (1 ≤ r2.prefix_len → r2.prefix_len ≤ 32 → routeMatches r2 a →
      (∀ e, e < 32 → r2.prefix_len ≤ e →
        nodeLeaf (insert_route (insert_route t r1) r2)
          (ip_to_binary a (e + 1)) = none) →
      lookup_route_optimized (insert_route (insert_route t r1) r2) a =
        some r2) := by
  have hkey : routeBits r1 = routeBits r2 := by
    rw [routeBits, routeBits, hpfx, hplen]
  have hnl : ∀ p, nodeLeaf (insert_route (insert_route t r1) r2) p =
      if p = routeBits r2 then some (some r2) else nodeLeaf t p := by
    intro p
    rw [nodeLeaf_insert_route, nodeLeaf_insert_route]
    by_cases hp : p = routeBits r2
    · rw [if_pos hp, if_pos hp]
    · rw [if_neg hp, if_neg (by rw [hkey]; exact hp), if_neg hp]
  constructor
  · intro hcon
    obtain ⟨d, hd, hval⟩ := lookup_anchored _ a r1 hcon
    rw [hnl] at hval
    by_cases hp : ip_to_binary a (d + 1) = routeBits r2
    · rw [if_pos hp] at hval
      injection hval with hval2
      injection hval2 with hval3
      exact hne hval3.symm
    · rw [if_neg hp] at hval
      exact hnot _ hval
  · intro h1 h2 hm hdeep
    obtain ⟨l, hl⟩ : ∃ l, r2.prefix_len = l + 1 :=
      ⟨r2.prefix_len - 1, by omega⟩
    have hd : l < 32 := by omega
    apply lookup_of_deepest_leaf _ a l (some r2) hd
    · have hbits : ip_to_binary a (l + 1) = routeBits r2 := by
        have hm' : ip_to_binary r2.pfx r2.prefix_len =
            ip_to_binary a r2.prefix_len := hm
        rw [routeBits, hm', hl]
      rw [hnl, if_pos hbits]
    · intro e he hel
      exact hdeep e hel (by omega)

/-- C3 witness: two records at `0/1` inserted into the empty trie;
looking up address 0 returns the second one. -/
theorem C3_witness :
    lookup_route_optimized
      (insert_route (insert_route create_trie_node (mkRoute 0 1 1))
        (mkRoute 0 1 2)) 0 = some (mkRoute 0 1 2) :=
  (C3_overwrite create_trie_node (mkRoute 0 1 1) (mkRoute 0 1 2) rfl rfl
    (by decide)
    (fun p => by rw [nodeLeaf_create_trie_node]; simp) 0).2
    (by decide) (by decide) (by decide) (by decide)

/-- C1 counterexample: a /0 route is admitted by the claim
(`prefix_len ∈ [0,32]`) and matches every address, yet after inserting
it the lookup of a matching address returns NULL instead of the
maximal-length match. -/
theorem C1_counterexample :
    (mkRoute 0 0 1).prefix_len ≤ 32 ∧
    routeMatches (mkRoute 0 0 1) 0 ∧
    lookup_route_optimized (buildTrie [mkRoute 0 0 1]) 0 = none := by
  decide

/-- C1 (amended): for every set of routes with `prefix_len ∈ [1,32]` and
pairwise distinct significant-bit keys inserted via `insert_route`, and
every 32-bit address, `lookup_route_optimized` returns NULL when no
route's prefix is a bit-prefix of the address, and returns the unique
route of maximal `prefix_len` among the matching ones otherwise.
(A /0 route is attached to the root and never returned — claim C9 — and
exact-duplicate keys follow last-writer-wins — claim C3.) -/
theorem C1_longest_match (routes : List route_entry_t) (ip : Nat)
    (hip : ip < 2 ^ 32)
    (hlen : ∀ r ∈ routes, 1 ≤ r.prefix_len ∧ r.prefix_len ≤ 32)
    (hkeys : (routes.map routeBits).Nodup) :
    ((∀ r ∈ routes, ¬ routeMatches r ip) →
      lookup_route_optimized (buildTrie routes) ip = none) ∧
    (∀ r ∈ routes, routeMatches r ip →
      (∀ r2 ∈ routes, routeMatches r2 ip → r2.prefix_len ≤ r.prefix_len) →
      lookup_route_optimized (buildTrie routes) ip = some r) := by
  constructor
  · intro hnom
    apply lookup_of_no_leaf
    intro d hd
    apply nodeLeaf_buildTrie_of_no_mem
    intro r hr hcon
    have hlen2 : r.prefix_len = d + 1 := by
      have hlc := congrArg List.length hcon
      simpa [routeBits] using hlc
    apply hnom r hr
    have hcon2 : ip_to_binary r.pfx r.prefix_len =
        ip_to_binary ip (d + 1) := hcon
    rw [hlen2] at hcon2
    show ip_to_binary r.pfx r.prefix_len = ip_to_binary ip r.prefix_len
    rw [hlen2]
    exact hcon2
  · intro r hr hm hmax
    obtain ⟨l, hl⟩ : ∃ l, r.prefix_len = l + 1 :=
      ⟨r.prefix_len - 1, by have := (hlen r hr).1; omega⟩
    have hl32 : l < 32 := by have := (hlen r hr).2; omega
    apply lookup_of_deepest_leaf _ ip l (some r) hl32
    · have hbits : routeBits r = ip_to_binary ip (l + 1) := by
        have hm2 : ip_to_binary r.pfx r.prefix_len =
            ip_to_binary ip r.prefix_len := hm
        rw [routeBits, hm2, hl]
      rw [← hbits]
      exact nodeLeaf_buildTrie_of_mem routes r hr hkeys
    · intro e he hel
      apply nodeLeaf_buildTrie_of_no_mem
      intro r2 hr2 hcon
      have hlen2 : r2.prefix_len = e + 1 := by
        have hlc := congrArg List.length hcon
        simpa [routeBits] using hlc
      have hm2 : routeMatches r2 ip := by
        have hcon2 : ip_to_binary r2.pfx r2.prefix_len =
            ip_to_binary ip (e + 1) := hcon
        rw [hlen2] at hcon2
        show ip_to_binary r2.pfx r2.prefix_len = ip_to_binary ip r2.prefix_len
        rw [hlen2]
        exact hcon2
      have hle := hmax r2 hr2 hm2
      omega

/-- C1 witness: one route `0/1`, queried at the matching address 0. -/
theorem C1_witness :
    lookup_route_optimized (buildTrie [mkRoute 0 1 5]) 0 =
      some (mkRoute 0 1 5) :=
  (C1_longest_match [mkRoute 0 1 5] 0 (by decide) (by decide)
    (by decide)).2 (mkRoute 0 1 5) (by decide) (by decide) (by decide)

/-- C6: if the cache holds an entry for the queried address whose age is
strictly below the TTL, `lookup_with_cache` returns that entry's route
and does so for every trie (the Trie Store is not consulted) leaving the
cache unchanged; if every entry for the address is absent or aged at
least the TTL, it returns exactly what `lookup_route_optimized` returns
on the trie. -/
theorem C6_cache_ttl (root : trie_node_t) (cache : route_cache_t)
    (ip : Nat) (ttl now : Int) :
    ((∃ e ∈ cache.entries, e.ip = ip ∧ now - e.timestamp < ttl) →
      ∃ e ∈ cache.entries, e.ip = ip ∧ now - e.timestamp < ttl ∧
        ∀ root2 : trie_node_t,
          lookup_with_cache root2 cache ip ttl now = (some e.route, cache)) ∧
    ((∀ e ∈ cache.entries, ¬(e.ip = ip ∧ now - e.timestamp < ttl)) →
      (lookup_with_cache root cache ip ttl now).1 =
        lookup_route_optimized root ip) := by
  constructor
  · intro hex
    cases hs : cache_scan cache.entries ip now ttl with
    | none =>
      rw [cache_scan_eq_none_iff] at hs
      obtain ⟨e, he, h1, h2⟩ := hex
      exact absurd ⟨h1, h2⟩ (hs e he)
    | some r =>
      obtain ⟨e, he, h1, h2, h3⟩ := cache_scan_some _ _ _ _ _ hs
      refine ⟨e, he, h1, h2, fun root2 => ?_⟩
      rw [lookup_with_cache_hit root2 cache ip ttl now r hs, h3]
  · intro hall
    apply lookup_with_cache_miss
    rw [cache_scan_eq_none_iff]
    exact hall

/-- C6 witness: an empty cache (no entry is fresh) falls through to the
trie lookup. -/
theorem C6_witness :
    (lookup_with_cache create_trie_node (create_route_cache 4) 7 10 100).1 =
      lookup_route_optimized create_trie_node 7 :=
  (C6_cache_ttl create_trie_node (create_route_cache 4) 7 10 100).2
    (by decide)

/-- C7: a cache created with capacity `c` never holds more than `c`
entries over any sequence of `lookup_with_cache` calls; a call on a full
cache returns it entirely unchanged (nothing appended, nothing evicted);
and any call either leaves the cache unchanged or appends exactly one
entry, which requires spare capacity and a route actually found in the
trie. -/
theorem C7_cache_capacity (c : Nat) :
    (∀ qs : List cache_query,
      (run_queries (create_route_cache c) qs).entries.length ≤ c) ∧
    (∀ root cache ip ttl now, cache.capacity ≤ cache.entries.length →
      (lookup_with_cache root cache ip ttl now).2 = cache) ∧
    (∀ (root : trie_node_t) (cache : route_cache_t) (ip : Nat)
        (ttl now : Int),
      (lookup_with_cache root cache ip ttl now).2 = cache ∨
        (cache.entries.length < cache.capacity ∧
         ∃ r, lookup_route_optimized root ip = some r ∧
           (lookup_with_cache root cache ip ttl now).2.entries =
             cache.entries ++ [{ ip := ip, route := r, timestamp := now }])) := by
  refine ⟨?_, ?_, ?_⟩
  · intro qs
    have h := (run_queries_invariant qs (create_route_cache c)
      (by simp [create_route_cache])).2
    simpa [create_route_cache] using h
  · intro root cache ip ttl now h
    exact lookup_with_cache_full root cache ip ttl now h
  · intro root cache ip ttl now
    rcases lookup_with_cache_snd_cases root cache ip ttl now with
      h | ⟨hlen, hscan, r, hr, h⟩
    · exact Or.inl h
    · exact Or.inr ⟨hlen, r, hr, by rw [h]⟩

/-- C7 witness: a call on a cache that already holds as many entries as
its capacity leaves it exactly as it was. -/
theorem C7_witness :
    (lookup_with_cache create_trie_node
      { entries := [{ ip := 1, route := mkRoute 0 1 1, timestamp := 0 },
                    { ip := 2, route := mkRoute 0 1 1, timestamp := 0 }],
        capacity := 2 } 3 10 100).2 =
      { entries := [{ ip := 1, route := mkRoute 0 1 1, timestamp := 0 },
                    { ip := 2, route := mkRoute 0 1 1, timestamp := 0 }],
        capacity := 2 } :=
  (C7_cache_capacity 2).2.1 create_trie_node _ 3 10 100 (by decide)

/-- C10: `lookup_with_cache` only ever appends — the old entry list is
always a prefix of the new one and the size never decreases — and a
concrete two-call run (same address, second call after the TTL expired)
leaves two entries for the one address: expired entries stay in place
and keep consuming capacity. -/
theorem C10_cache_append_only :
    (∀ (root : trie_node_t) (cache : route_cache_t) (ip : Nat)
        (ttl now : Int),
      (∃ tail, (lookup_with_cache root cache ip ttl now).2.entries =
        cache.entries ++ tail) ∧
      cache.entries.length ≤
        (lookup_with_cache root cache ip ttl now).2.entries.length) ∧
    (run_queries (create_route_cache 2)
        [{ root := buildTrie [mkRoute 0 1 5], ip := 0, ttl := 1, now := 0 },
         { root := buildTrie [mkRoute 0 1 5], ip := 0, ttl := 1, now := 10 }]
      ).entries.map route_cache_entry_t.ip = [0, 0] := by
  constructor
  · intro root cache ip ttl now
    rcases lookup_with_cache_append root cache ip ttl now with h | ⟨e, h⟩
    · exact ⟨⟨[], by simp [h]⟩, by rw [h]⟩
    · exact ⟨⟨[e], h⟩, by rw [h]; simp⟩
  · decide
